import Mathlib

/-!
# Verification of the `stat_arb` pairs-trading system

Shallow embedding, over exact rationals, of the core of the repository:

* `strategy/pairs.py`   — cointegration scan (`find_cointegrated_pairs`),
  spread/z-score computation and the entry/exit signal state machine
  (`generate_signals`);
* `strategy/scanner.py` — the stricter sector-grouped scanner
  (`_compute_pair_metrics`, `scan_pairs`);
* `portfolio/construction.py` — dollar-neutral weight construction with risk
  limits (`build_weights`);
* `backtest/engine.py`  — the walk-forward backtest loop (`run_backtest`);
* `live_feed/trader.py` — the live trailing z-score (`compute_zscore`).

Modelling conventions:

* Floats become exact rationals (`ℚ`).  NaN cells are modelled with `Option ℚ`
  where NaN propagation is semantically relevant (pandas `shift`/`pct_change`
  produce NaN rows and `sum` skips NaN).
* Calls into statsmodels (`coint` and `adfuller` p-values) are numerical
  procedures outside this repository; they enter the embedding as oracle
  function parameters (`cointPV`, `adfPV`).  The OLS slope and R², which the
  spec pins down as closed-form least squares, are implemented exactly.
* `sqrt` (used by `std = sqrt(variance)`) has no exact rational form, so the
  embedding takes an explicit square-root function parameter `sqrtQ`; theorems
  that depend on its meaning assume the defining properties of a square root.
  Likewise `np.log(2)` enters as a rational parameter `ln2`.
-/

namespace StatArb

/-! ## Numeric primitives (numpy / pandas helpers over ℚ) -/

/-- Arithmetic mean (`np.mean` / `Series.mean`).  On the empty list the
rational fallback `q / 0 = 0` stands in for pandas' NaN. -/
def mean (xs : List ℚ) : ℚ := xs.sum / xs.length

/-- Population variance (`np.var`, ddof = 0), so `np.std xs = sqrt (popVar xs)`. -/
def popVar (xs : List ℚ) : ℚ := ((xs.map (fun x => (x - mean xs) ^ 2)).sum) / xs.length

/-- Sample variance (pandas `.std()` squared, ddof = 1), so
`Series.std xs = sqrt (sampleVar xs)`.  For lists of length < 2 the rational
fallback `q / 0 = 0` stands in for pandas' NaN. -/
def sampleVar (xs : List ℚ) : ℚ :=
  ((xs.map (fun x => (x - mean xs) ^ 2)).sum) / ((xs.length - 1 : ℕ) : ℚ)

/-- Slope coefficient of an ordinary least-squares regression of `y` on `x`
with an intercept (`OLS(y, add_constant(x)).fit().params[1]`), in closed form:
`(n·Σxy − Σx·Σy) / (n·Σx² − (Σx)²)`. -/
def olsSlope (y x : List ℚ) : ℚ :=
  let n : ℚ := x.length
  (n * (List.zipWith (· * ·) x y).sum - x.sum * y.sum) /
    (n * (x.map (· ^ 2)).sum - x.sum ^ 2)

/-- R² of the same regression (`model.rsquared`): the squared correlation
`(n·Σxy − Σx·Σy)² / ((n·Σx² − (Σx)²)·(n·Σy² − (Σy)²))`. -/
def olsR2 (y x : List ℚ) : ℚ :=
  let n : ℚ := x.length
  (n * (List.zipWith (· * ·) x y).sum - x.sum * y.sum) ^ 2 /
    ((n * (x.map (· ^ 2)).sum - x.sum ^ 2) * (n * (y.map (· ^ 2)).sum - y.sum ^ 2))

/-- All unordered pairs in the order produced by `itertools.combinations(l, 2)`. -/
def combinations2 {α : Type} : List α → List (α × α)
  | [] => []
  | x :: xs => xs.map (fun y => (x, y)) ++ combinations2 xs

/-- pandas `Series.clip(lo, hi)` (for `lo ≤ hi`). -/
def clipQ (lo hi x : ℚ) : ℚ := max lo (min x hi)

/-! ## Price matrices

A price DataFrame: rows are trading sessions in chronological order, columns
are tickers.  Cells are adjusted close prices. -/

structure PriceDF where
  tickers : List String
  rows : List (List ℚ)
deriving DecidableEq

/-- Column position of ticker `t`. -/
def PriceDF.colIdx (p : PriceDF) (t : String) : ℕ := p.tickers.indexOf t

/-- The price series of ticker `t` (`prices[t]`). -/
def PriceDF.col (p : PriceDF) (t : String) : List ℚ :=
  p.rows.map (fun r => r.getD (p.colIdx t) 0)

/-- The price of ticker `t` on session `i` (`prices[t].iloc[i]`). -/
def PriceDF.price (p : PriceDF) (i : ℕ) (t : String) : ℚ :=
  (p.rows.getD i []).getD (p.colIdx t) 0

/-- Row slice `prices.iloc[a:b]` (same tickers, rows `a ≤ i < b`). -/
def PriceDF.sliceRows (p : PriceDF) (a b : ℕ) : PriceDF :=
  ⟨p.tickers, (p.rows.drop a).take (b - a)⟩

/-! ## `strategy/pairs.py` — pair discovery -/

/-- A discovered pair candidate, as in `find_cointegrated_pairs`. -/
structure PairC where
  ticker_a : String
  ticker_b : String
  pvalue : ℚ
  hedge_ratio : ℚ
deriving DecidableEq

/-- `find_cointegrated_pairs(prices, p_threshold)`: test every unordered pair
of columns with the Engle-Granger test (p-value oracle `cointPV`), keep pairs
with p-value strictly below `p_threshold`, attach the OLS hedge ratio, and
sort ascending by p-value (Python's stable `list.sort`). -/
def find_cointegrated_pairs (prices : PriceDF) (p_threshold : ℚ)
    (cointPV : List ℚ → List ℚ → ℚ) : List PairC :=
  let pairs := (combinations2 prices.tickers).filterMap (fun ab =>
    let sa := prices.col ab.1
    let sb := prices.col ab.2
    let pvalue := cointPV sa sb
    if pvalue < p_threshold then
      some ⟨ab.1, ab.2, pvalue, olsSlope sa sb⟩
    else none)
  pairs.mergeSort (fun p q => decide (p.pvalue ≤ q.pvalue))

/-! ## `strategy/pairs.py` — signal generation -/

/-- `compute_spread`: `prices[a] - hedge_ratio * prices[b]`. -/
def compute_spread (prices : PriceDF) (a b : String) (hr : ℚ) : List ℚ :=
  List.zipWith (fun x y => x - hr * y) (prices.col a) (prices.col b)

/-- `compute_zscore(spread, lookback)` (batch version): rolling z-score
`(spread - rolling mean) / rolling std` over a trailing window of `lookback`
sessions.  `none` models a NaN cell: the window has not filled yet
(`i + 1 < lookback`), or the rolling standard deviation is zero — there
`spread = mean`, so the float division is `0.0/0.0 = NaN` (this includes
`lookback ≤ 1`, where pandas' sample std is itself NaN).  Note there is **no**
numerical floor here: a nonzero variance is divided through as-is. -/
def compute_zscore (spread : List ℚ) (lookback : ℕ) (sqrtQ : ℚ → ℚ) :
    List (Option ℚ) :=
  (List.range spread.length).map (fun i =>
    if i + 1 < lookback then none
    else if sampleVar ((spread.take (i + 1)).drop (i + 1 - lookback)) = 0 then none
    else some ((spread.getD i 0 - mean ((spread.take (i + 1)).drop (i + 1 - lookback))) /
      sqrtQ (sampleVar ((spread.take (i + 1)).drop (i + 1 - lookback)))))

/-- The signal state machine inside `generate_signals`, one step per session:
`current` is the held position (`0` flat, `1` long spread, `-1` short spread)
and the emitted value is the post-transition position.  On a NaN z-score the
loop body is `pos.iloc[i] = 0.0; continue` — it emits `0` but does **not**
touch `current`. -/
def sigLoop (entry_z exit_z : ℚ) : ℚ → List (Option ℚ) → List ℚ
  | _, [] => []
  | current, none :: zs => 0 :: sigLoop entry_z exit_z current zs
  | current, some z :: zs =>
    let next :=
      if current = 0 then
        if z ≤ -entry_z then 1
        else if z ≥ entry_z then -1
        else current
      else
        if |z| ≤ exit_z then 0 else current
    next :: sigLoop entry_z exit_z next zs

/-- The per-pair position series of `generate_signals`, starting flat. -/
def signalsOfZ (z : List (Option ℚ)) (entry_z exit_z : ℚ) : List ℚ :=
  sigLoop entry_z exit_z 0 z

/-- Column label of a pair (`f"{a}/{b}"`). -/
def pairLabel (p : PairC) : String := p.ticker_a ++ "/" ++ p.ticker_b

/-- `generate_signals(prices, pairs, zscore_lookback, entry_z, exit_z)`:
one labelled signal column per pair.  (The DataFrame assignment
`signals[label] = pos` collapses duplicate labels last-wins; the list model
keeps one entry per pair, which coincides whenever labels are distinct — the
case in `run_backtest`, whose pairs carry distinct ticker pairs.) -/
def generate_signals (prices : PriceDF) (pairs : List PairC)
    (zscore_lookback : ℕ) (entry_z exit_z : ℚ) (sqrtQ : ℚ → ℚ) :
    List (String × List ℚ) :=
  pairs.map (fun pr =>
    (pairLabel pr,
     signalsOfZ
       (compute_zscore (compute_spread prices pr.ticker_a pr.ticker_b pr.hedge_ratio)
         zscore_lookback sqrtQ)
       entry_z exit_z))

/-! ## `portfolio/construction.py` — `build_weights`

The weight table has one row per signal session and one column per ticker in
`all_tickers` (the sorted union of pair legs).  We model a cell by a function
of (row index, ticker); row operations sum over `all_tickers`. -/

/-- The `pair_map` dict (`{label: p for p in pairs}`): on duplicate labels the
last pair wins, as in a Python dict comprehension. -/
def pair_map (pairs : List PairC) (label : String) : Option PairC :=
  (pairs.filter (fun p => pairLabel p = label)).getLast?

/-- `all_tickers`: sorted set of the tickers appearing in any pair. -/
def all_tickers (pairs : List PairC) : List String :=
  ((pairs.flatMap (fun p => [p.ticker_a, p.ticker_b])).dedup).mergeSort
    (fun a b => decide (a ≤ b))

/-- Accumulated raw weight of ticker `t` on row `i`: each signal column
`(label, sig)` contributes `sig * w` to leg A and `-sig * hr * w` to leg B of
its pair, with base weight `w = min(max_position_weight, max_position_weight)`
(the source's literal base-weight line).  A label missing from `pair_map`
raises `KeyError` in Python; the total model contributes `0` there (that
branch is unreachable from `run_backtest`, whose signal labels come from
`pairs` itself). -/
def rawWeight (signals : List (String × List ℚ)) (pairs : List PairC)
    (max_position_weight : ℚ) (i : ℕ) (t : String) : ℚ :=
  (signals.map (fun col =>
    match pair_map pairs col.1 with
    | some p =>
      let w := min max_position_weight max_position_weight
      let sig := col.2.getD i 0
      (if t = p.ticker_a then sig * w else 0) +
        (if t = p.ticker_b then -sig * p.hedge_ratio * w else 0)
    | none => 0)).sum

/-- Risk limit 1: clip every cell to `[-max_position_weight, max_position_weight]`. -/
def clippedWeight (signals : List (String × List ℚ)) (pairs : List PairC)
    (max_position_weight : ℚ) (i : ℕ) (t : String) : ℚ :=
  clipQ (-max_position_weight) max_position_weight
    (rawWeight signals pairs max_position_weight i t)

/-- Gross leverage of row `i` before rescaling: `weights.abs().sum(axis=1)`. -/
def grossRow (signals : List (String × List ℚ)) (pairs : List PairC)
    (max_position_weight : ℚ) (i : ℕ) : ℚ :=
  ((all_tickers pairs).map (fun t =>
    |clippedWeight signals pairs max_position_weight i t|)).sum

/-- Risk limit 2: the per-row scale `(max_gross_leverage / gross).clip(upper=1.0)`.
For a zero-gross row the float quotient is `inf` (for a positive leverage cap),
clipped to `1`; the model returns `1` there directly (the row is all zeros, so
the scaled values agree either way). -/
def rowScale (signals : List (String × List ℚ)) (pairs : List PairC)
    (max_position_weight max_gross_leverage : ℚ) (i : ℕ) : ℚ :=
  if grossRow signals pairs max_position_weight i = 0 then 1
  else min (max_gross_leverage / grossRow signals pairs max_position_weight i) 1

/-- `build_weights(signals, pairs, max_position_weight, max_gross_leverage)`:
final weight cell after clipping and row rescaling. -/
def build_weights (signals : List (String × List ℚ)) (pairs : List PairC)
    (max_position_weight max_gross_leverage : ℚ) (i : ℕ) (t : String) : ℚ :=
  clippedWeight signals pairs max_position_weight i t *
    rowScale signals pairs max_position_weight max_gross_leverage i

/-- Gross leverage of row `i` after construction. -/
def grossAfter (signals : List (String × List ℚ)) (pairs : List PairC)
    (max_position_weight max_gross_leverage : ℚ) (i : ℕ) : ℚ :=
  ((all_tickers pairs).map (fun t =>
    |build_weights signals pairs max_position_weight max_gross_leverage i t|)).sum

/-! ## `backtest/engine.py` — `run_backtest` -/

/-- One row of the backtest result table. -/
structure ResultRow where
  date : ℕ
  portfolio_return : ℚ
  gross_leverage : ℚ
  net_exposure : ℚ
  n_pairs : ℕ
deriving DecidableEq

/-- Strategy parameters of `run_backtest` (the Python keyword arguments). -/
structure BTParams where
  training_window : ℕ
  trading_window : ℕ
  coint_pvalue : ℚ
  zscore_lookback : ℕ
  entry_z : ℚ
  exit_z : ℚ
  max_position_weight : ℚ
  max_gross_leverage : ℚ

/-- `weights.columns.intersection(asset_returns.columns)`: the tickers common
to the weight table and the return table, in weight-column order. -/
def commonTickers (pairs : List PairC) (trade : PriceDF) : List String :=
  (all_tickers pairs).filter (fun t => t ∈ trade.tickers)

/-- One cell of `trade_prices.pct_change()`: `none` (NaN) on the first row,
else the simple return `(p_i - p_{i-1}) / p_{i-1}`.  (For a zero previous
price the float result is `inf`/NaN; the rational fallback is `0`.) -/
def pctChangeCell (trade : PriceDF) (i : ℕ) (t : String) : Option ℚ :=
  if i = 0 then none
  else some ((trade.price i t - trade.price (i - 1) t) / trade.price (i - 1) t)

/-- One cell of `w.shift(1)`: `none` (NaN) on the first row, else the weight
observed on the previous session. -/
def shiftedWeight (w : ℕ → String → ℚ) (i : ℕ) (t : String) : Option ℚ :=
  if i = 0 then none else some (w (i - 1) t)

/-- Float multiplication with NaN propagation. -/
def mulOpt : Option ℚ → Option ℚ → Option ℚ
  | some a, some b => some (a * b)
  | _, _ => none

/-- pandas `.sum` over a row, skipping NaN cells (`skipna=True`); an all-NaN
row sums to `0.0`. -/
def nansum (l : List (Option ℚ)) : ℚ := (l.filterMap id).sum

/-- The per-window weight table of `run_backtest` steps 2–3: signals from
`generate_signals` on the trading prices, weights from `build_weights`. -/
def windowWeights (trade : PriceDF) (pairs : List PairC) (P : BTParams)
    (sqrtQ : ℚ → ℚ) (i : ℕ) (t : String) : ℚ :=
  build_weights
    (generate_signals trade pairs P.zscore_lookback P.entry_z P.exit_z sqrtQ)
    pairs P.max_position_weight P.max_gross_leverage i t

/-- Step 4's `port_ret = (w.shift(1) * r).sum(axis=1)` at row `i`:
yesterday's weights times today's per-asset simple returns, over the common
tickers, with NaN cells skipped by the row sum. -/
def port_ret (trade : PriceDF) (pairs : List PairC) (P : BTParams)
    (sqrtQ : ℚ → ℚ) (i : ℕ) : ℚ :=
  nansum ((commonTickers pairs trade).map (fun t =>
    mulOpt (shiftedWeight (windowWeights trade pairs P sqrtQ) i t)
      (pctChangeCell trade i t)))

/-- The result rows recorded for one trading window with a non-empty pair
list (`for i, dt in enumerate(trade_prices.index)`); `dateOfs` is the global
session index of the window's first trading row.  The `i < len(w)` guard of
the source is kept literally (it always holds: the weight table is indexed
like the trading prices). -/
def windowRows (trade : PriceDF) (dateOfs : ℕ) (pairs : List PairC)
    (P : BTParams) (sqrtQ : ℚ → ℚ) : List ResultRow :=
  (List.range trade.rows.length).map (fun i =>
    { date := dateOfs + i
      portfolio_return := port_ret trade pairs P sqrtQ i
      gross_leverage :=
        if i < trade.rows.length then
          ((commonTickers pairs trade).map (fun t =>
            |windowWeights trade pairs P sqrtQ i t|)).sum
        else 0
      net_exposure :=
        if i < trade.rows.length then
          ((commonTickers pairs trade).map (fun t =>
            windowWeights trade pairs P sqrtQ i t)).sum
        else 0
      n_pairs := pairs.length })

/-- The zero rows recorded for a window in which no pairs were found. -/
def zeroRows (dateOfs n : ℕ) : List ResultRow :=
  (List.range n).map (fun i =>
    { date := dateOfs + i
      portfolio_return := 0
      gross_leverage := 0
      net_exposure := 0
      n_pairs := 0 })

/-- The walk-forward `while` loop.  `fuel` bounds the number of iterations:
`run_backtest` passes enough fuel that the loop condition, not the fuel, is
what terminates it whenever `trading_window ≥ 1` (with `trading_window = 0`
the Python loop never terminates). -/
def backtestLoop (prices : PriceDF) (P : BTParams)
    (cointPV : List ℚ → List ℚ → ℚ) (sqrtQ : ℚ → ℚ) :
    ℕ → ℕ → List ResultRow
  | _, 0 => []
  | start, fuel + 1 =>
    if start + P.training_window + P.trading_window ≤ prices.rows.length then
      let train_end := start + P.training_window
      let trade_end := min (train_end + P.trading_window) prices.rows.length
      let train_prices := prices.sliceRows start train_end
      let trade_prices := prices.sliceRows train_end trade_end
      let pairs := find_cointegrated_pairs train_prices P.coint_pvalue cointPV
      (if pairs = [] then
        zeroRows train_end trade_prices.rows.length
      else
        windowRows trade_prices train_end pairs P sqrtQ) ++
        backtestLoop prices P cointPV sqrtQ (start + P.trading_window) fuel
    else []

/-- `df[~df.index.duplicated(keep="last")]`: keep, in positional order, only
the last-written row of each date. -/
def dedupKeepLast : List ResultRow → List ResultRow
  | [] => []
  | r :: rs =>
    if rs.any (fun r2 => r2.date = r.date) then dedupKeepLast rs
    else r :: dedupKeepLast rs

/-- The final stitching of `run_backtest`: deduplicate by date (last write
wins), then `sort_index()` (stable sort by date). -/
def stitch (rows : List ResultRow) : List ResultRow :=
  (dedupKeepLast rows).mergeSort (fun a b => decide (a.date ≤ b.date))

/-- `run_backtest`: run the walk-forward loop from offset 0 and stitch the
per-window rows into the final table.  Dates are global session indices into
`prices.rows`. -/
def run_backtest (prices : PriceDF) (P : BTParams)
    (cointPV : List ℚ → List ℚ → ℚ) (sqrtQ : ℚ → ℚ) : List ResultRow :=
  stitch (backtestLoop prices P cointPV sqrtQ 0 (prices.rows.length + 1))

/-! ## `strategy/scanner.py` — stricter sector-grouped scanner -/

/-- The metrics dict returned by `_compute_pair_metrics`. -/
structure PairMetrics where
  coint_pvalue : ℚ
  adf_pvalue : ℚ
  hedge_ratio : ℚ
  half_life : ℚ
  spread_std : ℚ
  z_score : ℚ
  r_squared : ℚ
deriving DecidableEq

/-- `_compute_pair_metrics(prices_a, prices_b)`: the cointegration +
stationarity + mean-reversion filter chain.  `cointPV` and `adfPV` are the
statsmodels p-value oracles (`coint`, `adfuller(·, maxlag=20)`); `ln2` stands
for `np.log(2)`.  `np.std` is `sqrtQ ∘ popVar` (population std).  The unused
`spread_mean = np.mean(spread)` of the source is dropped.  In
`spread[-lookback:]` the lookback is ≥ 5 whenever this point is reached
(`len(spread) ≥ 11`), so the Python `-0` corner case cannot occur. -/
def _compute_pair_metrics (prices_a prices_b : List ℚ)
    (cointPV : List ℚ → List ℚ → ℚ) (adfPV : List ℚ → ℚ)
    (sqrtQ : ℚ → ℚ) (ln2 : ℚ) : Option PairMetrics :=
  let pvalue := cointPV prices_a prices_b
  if pvalue > 1/20 then none else
  let hedge_ratio := olsSlope prices_a prices_b
  if |hedge_ratio| < 1/10 ∨ |hedge_ratio| > 10 then none else
  let spread := List.zipWith (fun x y => x - hedge_ratio * y) prices_a prices_b
  let adf_pval := adfPV spread
  if adf_pval > 1/20 then none else
  let spread_std := sqrtQ (popVar spread)
  if spread_std < 1/1000000 then none else
  let spread_lag := spread.dropLast
  let spread_diff := List.zipWith (fun next prev => next - prev) spread.tail spread.dropLast
  if spread_lag.length < 10 then none else
  let beta_ar := olsSlope spread_diff spread_lag
  if beta_ar ≥ 0 then none else
  let half_life := -ln2 / beta_ar
  let lookback := min 60 (spread.length / 2)
  let recent_spread := spread.drop (spread.length - lookback)
  let z_score := (spread.getLastD 0 - mean recent_spread) / sqrtQ (popVar recent_spread)
  some ⟨pvalue, adf_pval, hedge_ratio, half_life, spread_std, z_score,
    olsR2 prices_a prices_b⟩

/-- A scanner price table: one (ticker, series) column per ticker, `none`
cells being NaN (removed by `.dropna()`). -/
abbrev ScanPrices := List (String × List (Option ℚ))

/-- `prices[t]` for the scanner's table. -/
def scanCol (prices : ScanPrices) (t : String) : List (Option ℚ) :=
  match prices.lookup t with
  | some c => c
  | none => []

/-- `Series.dropna()`. -/
def dropna (c : List (Option ℚ)) : List ℚ := c.filterMap id

/-- `sectors.get(t, "Unknown")`. -/
def sectorOf (sectors : List (String × String)) (t : String) : String :=
  match sectors.lookup t with
  | some s => s
  | none => "Unknown"

/-- First occurrences, in order (the key order of an insertion-ordered dict). -/
def dedupKeepFirst (l : List String) : List String :=
  l.foldl (fun acc x => if x ∈ acc then acc else acc ++ [x]) []

/-- The `sector_groups` dict of `scan_pairs`: sectors in first-appearance
order, each with its member tickers in column order. -/
def sectorGroups (tickers : List String) (sectors : List (String × String)) :
    List (String × List String) :=
  (dedupKeepFirst (tickers.map (sectorOf sectors))).map (fun sec =>
    (sec, tickers.filter (fun t => sectorOf sectors t = sec)))

/-- A scanner candidate: the Python dict `{ticker_a, ticker_b, sector, score,
**metrics}`, with the splatted metrics kept as a nested record `m`. -/
structure Cand where
  ticker_a : String
  ticker_b : String
  sector : String
  score : ℚ
  m : PairMetrics
deriving DecidableEq

/-- The candidate-collection loop of `scan_pairs`: intra-sector pairs with at
least 100 aligned non-missing observations and passing metrics, scored by
`0.3·(1−coint p) + 0.3·(1−ADF p) + 0.2·(1/max(half_life,1)) + 0.2·R²`. -/
def scanCandidates (prices : ScanPrices) (sectors : List (String × String))
    (cointPV : List ℚ → List ℚ → ℚ) (adfPV : List ℚ → ℚ)
    (sqrtQ : ℚ → ℚ) (ln2 : ℚ) : List Cand :=
  (sectorGroups (prices.map Prod.fst) sectors).flatMap (fun g =>
    if g.2.length < 2 then [] else
    (combinations2 g.2).filterMap (fun ab =>
      if ab.1 ∈ prices.map Prod.fst ∧ ab.2 ∈ prices.map Prod.fst then
        let series_a := dropna (scanCol prices ab.1)
        let series_b := dropna (scanCol prices ab.2)
        let min_len := min series_a.length series_b.length
        if min_len < 100 then none else
        let sa := series_a.drop (series_a.length - min_len)
        let sb := series_b.drop (series_b.length - min_len)
        match _compute_pair_metrics sa sb cointPV adfPV sqrtQ ln2 with
        | none => none
        | some met =>
          some ⟨ab.1, ab.2, g.1,
            (1 - met.coint_pvalue) * (3/10) + (1 - met.adf_pvalue) * (3/10) +
              (1 / max met.half_life 1) * (1/5) + met.r_squared * (1/5),
            met⟩
      else none))

/-- The greedy sector-diversification loop of `scan_pairs` over the ranked
candidates: skip sectors at their cap, stop once `max_pairs` are selected
(the length check runs after each append, as in the source). -/
def selectLoop (max_pairs max_per_sector : ℕ) :
    List Cand → (String → ℕ) → ℕ → List Cand
  | [], _, _ => []
  | c :: rest, sector_count, n_selected =>
    if max_per_sector ≤ sector_count c.sector then
      selectLoop max_pairs max_per_sector rest sector_count n_selected
    else
      c :: (if max_pairs ≤ n_selected + 1 then []
            else selectLoop max_pairs max_per_sector rest
              (fun s => if s = c.sector then sector_count s + 1 else sector_count s)
              (n_selected + 1))

/-- `scan_pairs(prices, sectors, max_pairs, max_per_sector)`: collect
candidates, sort by score descending (stable), then select greedily under the
per-sector cap. -/
def scan_pairs (prices : ScanPrices) (sectors : List (String × String))
    (max_pairs max_per_sector : ℕ)
    (cointPV : List ℚ → List ℚ → ℚ) (adfPV : List ℚ → ℚ)
    (sqrtQ : ℚ → ℚ) (ln2 : ℚ) : List Cand :=
  selectLoop max_pairs max_per_sector
    ((scanCandidates prices sectors cointPV adfPV sqrtQ ln2).mergeSort
      (fun x y => decide (y.score ≤ x.score)))
    (fun _ => 0) 0

/-! ## `live_feed/trader.py` — trailing z-score -/

namespace LiveFeed

/-- The trailing window `spread.iloc[-lookback:]`, after the source's
`if len(spread) < lookback: lookback = len(spread)` shrink. -/
def recentWindow (spread : List ℚ) (lookback : ℕ) : List ℚ :=
  spread.drop (spread.length -
    (if spread.length < lookback then spread.length else lookback))

/-- `live_feed/trader.py::compute_zscore(spread, lookback)`: z-score of the
last observation over the trailing `lookback` ticks (shrunk to the series
length if shorter), with the `std < 1e-8` floor returning a flat `0.0`.
`Series.std()` is sample std, i.e. `sqrtQ ∘ sampleVar`; for a trailing window
of a single tick the float std is NaN (so Python returns NaN), while the
rational model returns 0 — theorems about this function require at least two
ticks in the window. -/
def compute_zscore (spread : List ℚ) (lookback : ℕ) (sqrtQ : ℚ → ℚ) : ℚ :=
  if sqrtQ (sampleVar (recentWindow spread lookback)) < 1/100000000 then 0
  else (spread.getLastD 0 - mean (recentWindow spread lookback)) /
    sqrtQ (sampleVar (recentWindow spread lookback))

end LiveFeed

/-! ## Spec-side state machine (for the refinement claim about
`generate_signals`) -/

/-- The spec's signal states. -/
inductive SpreadState
  | flat
  | long_spread
  | short_spread
deriving DecidableEq

/-- Modelled from the spec's words (§4.2 state machine): from FLAT enter
LONG_SPREAD when `z ≤ −entry_z` and SHORT_SPREAD when `z ≥ +entry_z`; from a
spread position go FLAT exactly when `|z| ≤ exit_z`; otherwise hold.  (For
`entry_z > 0` the two entry guards are mutually exclusive, so the rule order
is immaterial.) -/
def specStep (entry_z exit_z : ℚ) : SpreadState → ℚ → SpreadState
  | .flat, z =>
    if z ≤ -entry_z then .long_spread
    else if z ≥ entry_z then .short_spread
    else .flat
  | .long_spread, z => if |z| ≤ exit_z then .flat else .long_spread
  | .short_spread, z => if |z| ≤ exit_z then .flat else .short_spread

/-- The signal emitted for each state: `+1` long spread, `−1` short spread,
`0` flat. -/
def stateSignal : SpreadState → ℚ
  | .flat => 0
  | .long_spread => 1
  | .short_spread => -1

/-- Run the spec's machine over a z-score sequence from a given state,
emitting the post-transition signal each session. -/
def specRun (entry_z exit_z : ℚ) : SpreadState → List ℚ → List ℚ
  | _, [] => []
  | s, z :: zs =>
    let s2 := specStep entry_z exit_z s z
    stateSignal s2 :: specRun entry_z exit_z s2 zs

/-- The spec machine evaluated chronologically from FLAT. -/
def specSignals (zs : List ℚ) (entry_z exit_z : ℚ) : List ℚ :=
  specRun entry_z exit_z .flat zs

/-! ## Helper lemmas -/

/-- `sigLoop` started at the signal of a spec state agrees with the spec
machine run from that state, on fully defined z-score sequences. -/
theorem sigLoop_eq_specRun (zs : List ℚ) :
    ∀ (s : SpreadState) (entry_z exit_z : ℚ),
      sigLoop entry_z exit_z (stateSignal s) (zs.map some) =
        specRun entry_z exit_z s zs := by
  induction zs with
  | nil => intro s e x; cases s <;> rfl
  | cons z zs ih =>
    intro s e x
    cases s with
    | flat =>
      simp only [List.map_cons, sigLoop, specRun, specStep, stateSignal]
      by_cases h1 : z ≤ -e
      · simpa [h1, stateSignal] using ih .long_spread e x
      · by_cases h2 : z ≥ e
        · have h2' : e ≤ z := h2
          simp only [if_neg h1, if_pos h2, if_pos h2']
          have := ih .short_spread e x
          simp only [stateSignal] at this
          simpa [h1, h2, h2', stateSignal] using this
        · have h2' : ¬ e ≤ z := h2
          simpa [h1, h2, h2', stateSignal] using ih .flat e x
    | long_spread =>
      simp only [List.map_cons, sigLoop, specRun, specStep, stateSignal]
      by_cases h1 : |z| ≤ x
      · simpa [h1, stateSignal] using ih .flat e x
      · have := ih .long_spread e x
        simp only [stateSignal] at this
        simpa [h1, stateSignal] using this
    | short_spread =>
      simp only [List.map_cons, sigLoop, specRun, specStep, stateSignal]
      by_cases h1 : |z| ≤ x
      · simpa [h1, stateSignal] using ih .flat e x
      · have := ih .short_spread e x
        simp only [stateSignal] at this
        simpa [h1, stateSignal] using this

/-! ## Claim C2 — the signal state machine -/

/-- C2: for every z-score sequence, `generate_signals`' per-pair loop
(`signalsOfZ`, evaluated in chronological order) emits exactly the signals of
the specified state machine — FLAT→LONG_SPREAD (+1) when `z ≤ −entry_z`,
FLAT→SHORT_SPREAD (−1) when `z ≥ +entry_z`, position→FLAT (0) exactly when
`|z| ≤ exit_z`, hold otherwise, no re-entry from a position; and on z-scores
`[0, -2.1, -1.0, 0.6, -2.5, 0.3]` with `entry_z = 2.0`, `exit_z = 0.5` the
signals are `[0, 1, 1, 1, 1, 0]`. -/
theorem generate_signals_matches_spec_machine :
    (∀ (zs : List ℚ) (entry_z exit_z : ℚ), 0 < entry_z →
      signalsOfZ (zs.map some) entry_z exit_z = specSignals zs entry_z exit_z) ∧
    signalsOfZ ([0, -21/10, -1, 3/5, -5/2, 3/10].map some) 2 (1/2) =
      [0, 1, 1, 1, 1, 0] := by
  constructor
  · intro zs entry_z exit_z _
    simpa [stateSignal] using sigLoop_eq_specRun zs .flat entry_z exit_z
  · norm_num [signalsOfZ, sigLoop, abs]

/-- Witness for C2 at the spec's concrete example (`entry_z = 2 > 0`). -/
theorem generate_signals_matches_spec_machine_witness :
    signalsOfZ ([0, -21/10, -1, 3/5, -5/2, 3/10].map some) 2 (1/2) =
      specSignals [0, -21/10, -1, 3/5, -5/2, 3/10] 2 (1/2) :=
  generate_signals_matches_spec_machine.1 [0, -21/10, -1, 3/5, -5/2, 3/10] 2 (1/2)
    (by norm_num)

/-! ## Claim C6 — undefined z-scores -/

/-- C6 counterexample: with `entry_z = 2`, `exit_z = 1/2`, the z-score
sequence `[-2.1, NaN, -1.0]` yields signals `[1, 0, 1]` — after the NaN
session the machine still holds its LONG position, whereas evaluating the
last session from FLAT (as the claim asserts) would emit `0`. -/
theorem undefined_zscore_counterexample :
    signalsOfZ [some (-21/10), none, some (-1)] 2 (1/2) = [1, 0, 1] ∧
    sigLoop 2 (1/2) 0 [some (-1)] = [0] := by
  constructor <;> norm_num [signalsOfZ, sigLoop, abs]

/-- C6 amended: on an undefined (NaN) z-score the loop emits signal `0` for
that session but leaves the held state `current` untouched, so the next
defined z-score is evaluated from the state held *before* the undefined
session (not from FLAT). -/
theorem undefined_zscore_emits_zero_keeps_state
    (entry_z exit_z current : ℚ) (zs : List (Option ℚ)) :
    sigLoop entry_z exit_z current (none :: zs) =
      0 :: sigLoop entry_z exit_z current zs := rfl

/-! ## Claim C3 — portfolio risk limits -/

/-- Every clipped cell is bounded by the position cap. -/
theorem abs_clippedWeight_le (signals : List (String × List ℚ)) (pairs : List PairC)
    (mpw : ℚ) (i : ℕ) (t : String) (hpw : 0 ≤ mpw) :
    |clippedWeight signals pairs mpw i t| ≤ mpw := by
  unfold clippedWeight clipQ
  rw [abs_le]
  exact ⟨le_max_left _ _, max_le (by linarith) (min_le_right _ _)⟩

/-- Pre-scaling gross leverage is a sum of absolute values, hence nonnegative. -/
theorem grossRow_nonneg (signals : List (String × List ℚ)) (pairs : List PairC)
    (mpw : ℚ) (i : ℕ) : 0 ≤ grossRow signals pairs mpw i := by
  apply List.sum_nonneg
  intro x hx
  simp only [List.mem_map] at hx
  obtain ⟨t, -, rfl⟩ := hx
  exact abs_nonneg _

/-- The per-row leverage scale factor is never above 1. -/
theorem rowScale_le_one (signals : List (String × List ℚ)) (pairs : List PairC)
    (mpw mgl : ℚ) (i : ℕ) : rowScale signals pairs mpw mgl i ≤ 1 := by
  unfold rowScale
  split
  · exact le_refl 1
  · exact min_le_right _ _

/-- For a positive leverage cap the scale factor is nonnegative. -/
theorem rowScale_nonneg (signals : List (String × List ℚ)) (pairs : List PairC)
    (mpw mgl : ℚ) (i : ℕ) (hgl : 0 < mgl) : 0 ≤ rowScale signals pairs mpw mgl i := by
  unfold rowScale
  split
  · exact zero_le_one
  · rename_i hg
    have hg0 : 0 < grossRow signals pairs mpw i :=
      lt_of_le_of_ne (grossRow_nonneg signals pairs mpw i) (Ne.symm hg)
    exact le_min (le_of_lt (div_pos hgl hg0)) zero_le_one

/-- Post-construction gross leverage factors as (pre-scaling gross) × scale. -/
theorem grossAfter_eq (signals : List (String × List ℚ)) (pairs : List PairC)
    (mpw mgl : ℚ) (i : ℕ) (hgl : 0 < mgl) :
    grossAfter signals pairs mpw mgl i =
      grossRow signals pairs mpw i * rowScale signals pairs mpw mgl i := by
  unfold grossAfter grossRow build_weights
  rw [← List.sum_map_mul_right]
  congr 1
  apply List.map_congr_left
  intro t _
  rw [abs_mul, abs_of_nonneg (rowScale_nonneg signals pairs mpw mgl i hgl)]

/-- C3: after `build_weights`, every cell is within the position cap, every
row's gross leverage is within the leverage cap, and the per-row rescaling
factor `max_gross_leverage / gross` is capped at 1 — rows are only ever
scaled down, never up. -/
theorem build_weights_risk_limits (signals : List (String × List ℚ)) (pairs : List PairC)
    (max_position_weight max_gross_leverage : ℚ) (i : ℕ) (t : String)
    (hpw : 0 ≤ max_position_weight) (hgl : 0 < max_gross_leverage) :
    |build_weights signals pairs max_position_weight max_gross_leverage i t| ≤
      max_position_weight ∧
    grossAfter signals pairs max_position_weight max_gross_leverage i ≤
      max_gross_leverage ∧
    rowScale signals pairs max_position_weight max_gross_leverage i ≤ 1 := by
  refine ⟨?_, ?_, rowScale_le_one signals pairs _ _ i⟩
  · unfold build_weights
    rw [abs_mul, abs_of_nonneg (rowScale_nonneg signals pairs _ _ i hgl)]
    calc |clippedWeight signals pairs max_position_weight i t| *
        rowScale signals pairs max_position_weight max_gross_leverage i
      ≤ max_position_weight * 1 :=
        mul_le_mul (abs_clippedWeight_le signals pairs _ i t hpw)
          (rowScale_le_one signals pairs _ _ i)
          (rowScale_nonneg signals pairs _ _ i hgl) hpw
      _ = max_position_weight := mul_one _
  · rw [grossAfter_eq signals pairs _ _ i hgl]
    simp only [rowScale]
    split
    · rename_i hg
      rw [hg, zero_mul]
      exact le_of_lt hgl
    · rename_i hg
      have hg0 : 0 < grossRow signals pairs max_position_weight i :=
        lt_of_le_of_ne (grossRow_nonneg signals pairs _ i) (Ne.symm hg)
      calc grossRow signals pairs max_position_weight i *
          min (max_gross_leverage / grossRow signals pairs max_position_weight i) 1
        ≤ grossRow signals pairs max_position_weight i *
            (max_gross_leverage / grossRow signals pairs max_position_weight i) :=
          mul_le_mul_of_nonneg_left (min_le_left _ _) (le_of_lt hg0)
        _ = max_gross_leverage := mul_div_cancel₀ _ (ne_of_gt hg0)

/-- Witness for C3 at a concrete signal table and pair list. -/
theorem build_weights_risk_limits_witness :
    (0:ℚ) ≤ 1/20 ∧ (0:ℚ) < 4 ∧
    (|build_weights [("AAA/BBB", [1])] [⟨"AAA", "BBB", 1/100, 2⟩] (1/20) 4 0 "AAA"| ≤ 1/20 ∧
     grossAfter [("AAA/BBB", [1])] [⟨"AAA", "BBB", 1/100, 2⟩] (1/20) 4 0 ≤ 4 ∧
     rowScale [("AAA/BBB", [1])] [⟨"AAA", "BBB", 1/100, 2⟩] (1/20) 4 0 ≤ 1) :=
  ⟨by norm_num, by norm_num,
   build_weights_risk_limits [("AAA/BBB", [1])] [⟨"AAA", "BBB", 1/100, 2⟩]
     (1/20) 4 0 "AAA" (by norm_num) (by norm_num)⟩

/-! ## Claims C1 and C10 — return alignment in the backtest -/

/-- A NaN-skipping row sum of everywhere-defined cells is a plain sum. -/
theorem nansum_map_some {α : Type} (l : List α) (g : α → ℚ) :
    nansum (l.map (fun t => some (g t))) = (l.map g).sum := by
  induction l with
  | nil => rfl
  | cons x xs ih =>
    simp only [List.map_cons, nansum, List.filterMap_cons, id, List.sum_cons] at ih ⊢
    rw [ih]

/-- A NaN-skipping row sum of an all-NaN row is `0.0`. -/
theorem nansum_map_none {α : Type} (l : List α) :
    nansum (l.map (fun _ => (none : Option ℚ))) = 0 := by
  induction l with
  | nil => rfl
  | cons x xs ih => simp [nansum, List.filterMap_cons, id] at ih ⊢

/-- The recorded `portfolio_return` of the `i`-th row of a trading window is
`port_ret.iloc[i]`. -/
theorem windowRows_getD (trade : PriceDF) (dateOfs : ℕ) (pairs : List PairC)
    (P : BTParams) (sqrtQ : ℚ → ℚ) (i : ℕ) (d : ResultRow)
    (hi : i < trade.rows.length) :
    ((windowRows trade dateOfs pairs P sqrtQ).getD i d).portfolio_return =
      port_ret trade pairs P sqrtQ i := by
  unfold windowRows
  rw [List.getD_eq_getElem?_getD, List.getElem?_map, List.getElem?_range hi]
  rfl

/-- C1: in `run_backtest`'s per-window return computation, the recorded
`portfolio_return` of session `i ≥ 1` of the trading window equals the dot
product of the weights observed on session `i − 1` with the per-asset simple
returns `(p_i − p_{i−1}) / p_{i−1}` realized on session `i`, taken over the
tickers common to the weight table and the return table; the weight observed
on session `i` itself does not appear. -/
theorem backtest_return_alignment (trade : PriceDF) (dateOfs : ℕ)
    (pairs : List PairC) (P : BTParams) (sqrtQ : ℚ → ℚ) (i : ℕ) (d : ResultRow)
    (h0 : 0 < i) (hi : i < trade.rows.length) :
    ((windowRows trade dateOfs pairs P sqrtQ).getD i d).portfolio_return =
      ((commonTickers pairs trade).map (fun t =>
        windowWeights trade pairs P sqrtQ (i - 1) t *
          ((trade.price i t - trade.price (i - 1) t) / trade.price (i - 1) t))).sum := by
  rw [windowRows_getD trade dateOfs pairs P sqrtQ i d hi]
  unfold port_ret
  have hcell : ∀ t : String,
      mulOpt (shiftedWeight (windowWeights trade pairs P sqrtQ) i t)
        (pctChangeCell trade i t) =
      some (windowWeights trade pairs P sqrtQ (i - 1) t *
        ((trade.price i t - trade.price (i - 1) t) / trade.price (i - 1) t)) := by
    intro t
    have hne : i ≠ 0 := Nat.pos_iff_ne_zero.mp h0
    unfold shiftedWeight pctChangeCell
    rw [if_neg hne, if_neg hne]
    rfl
  rw [List.map_congr_left (fun t _ => hcell t)]
  exact nansum_map_some _ _

/-- C10: the first session of every trading window records a portfolio return
of exactly `0` — `w.shift(1)` makes its first row all-NaN, the NaN-skipping
row sum yields `0.0`, and the no-pairs branch writes a literal `0.0` — so no
position carries into a window from the previous one. -/
theorem first_window_session_return_zero :
    (∀ (trade : PriceDF) (dateOfs : ℕ) (pairs : List PairC) (P : BTParams)
        (sqrtQ : ℚ → ℚ) (d : ResultRow), trade.rows ≠ [] →
      ((windowRows trade dateOfs pairs P sqrtQ).getD 0 d).portfolio_return = 0) ∧
    (∀ (dateOfs n : ℕ) (d : ResultRow), n ≠ 0 →
      ((zeroRows dateOfs n).getD 0 d).portfolio_return = 0) := by
  constructor
  · intro trade dateOfs pairs P sqrtQ d hne
    rw [windowRows_getD trade dateOfs pairs P sqrtQ 0 d (List.length_pos.mpr hne)]
    unfold port_ret
    have hcell : ∀ t : String,
        mulOpt (shiftedWeight (windowWeights trade pairs P sqrtQ) 0 t)
          (pctChangeCell trade 0 t) = none := by
      intro t
      unfold shiftedWeight
      rw [if_pos rfl]
      rfl
    rw [List.map_congr_left (fun t _ => hcell t)]
    exact nansum_map_none _
  · intro dateOfs n d hn
    unfold zeroRows
    rw [List.getD_eq_getElem?_getD, List.getElem?_map,
      List.getElem?_range (Nat.pos_iff_ne_zero.mpr hn)]
    rfl

/-- Concrete 4-session trading window for the return-alignment witness:
ticker AAA enters at z = −8/7 on session 2 with weight `0.05`, then rises by
exactly 2% into session 3 (`93.84 = 92 × 1.02`); ticker BBB is flat. -/
def tradeC1 : PriceDF := ⟨["AAA", "BBB"], [[105, 1], [103, 1], [92, 1], [2346/25, 1]]⟩

/-- One concrete pair, with hedge ratio 0 so only leg AAA is weighted. -/
def pairsC1 : List PairC := [⟨"AAA", "BBB", 1/100, 0⟩]

/-- Concrete parameters: lookback 3, `entry_z = 8/7`, `exit_z = 1/100`,
`max_position_weight = 0.05`, `max_gross_leverage = 4`. -/
def paramsC1 : BTParams := ⟨0, 4, 1/20, 3, 8/7, 1/100, 1/20, 4⟩

/-- Square root used on this data: the only variance whose root matters is
`sampleVar [105, 103, 92] = 49`. -/
def sqrtC1 : ℚ → ℚ := fun v => if v = 49 then 7 else 0

/-- Witness for C1: on `tradeC1` the session-3 recorded return equals
yesterday's weights dotted with today's returns, and its value is exactly
`0.05 × 0.02 = 0.001`. -/
theorem backtest_return_alignment_witness :
    (0 < 3 ∧ 3 < tradeC1.rows.length) ∧
    ((windowRows tradeC1 0 pairsC1 paramsC1 sqrtC1).getD 3 ⟨0, 0, 0, 0, 0⟩).portfolio_return =
      ((commonTickers pairsC1 tradeC1).map (fun t =>
        windowWeights tradeC1 pairsC1 paramsC1 sqrtC1 (3 - 1) t *
          ((tradeC1.price 3 t - tradeC1.price (3 - 1) t) / tradeC1.price (3 - 1) t))).sum ∧
    ((windowRows tradeC1 0 pairsC1 paramsC1 sqrtC1).getD 3 ⟨0, 0, 0, 0, 0⟩).portfolio_return =
      1/1000 :=
  ⟨⟨by norm_num, by norm_num [tradeC1]⟩,
   backtest_return_alignment tradeC1 0 pairsC1 paramsC1 sqrtC1 3 ⟨0, 0, 0, 0, 0⟩
     (by norm_num) (by norm_num [tradeC1]),
   by
    rw [windowRows_getD tradeC1 0 pairsC1 paramsC1 sqrtC1 3 ⟨0, 0, 0, 0, 0⟩
      (by norm_num [tradeC1])]
    norm_num +decide [port_ret, commonTickers, all_tickers, mulOpt, shiftedWeight,
      pctChangeCell, nansum, windowWeights, build_weights, clippedWeight, clipQ,
      rowScale, grossRow, rawWeight, pair_map, pairLabel, generate_signals,
      signalsOfZ, sigLoop, compute_zscore, compute_spread, sampleVar, mean,
      PriceDF.col, PriceDF.colIdx, PriceDF.price, tradeC1, pairsC1, paramsC1,
      sqrtC1, List.mergeSort, List.merge, List.dedup, List.lookup, abs,
      List.filterMap_cons, List.filterMap_nil, id]⟩

/-- Witness for C10 on `tradeC1` and on a one-session zero-row window. -/
theorem first_window_session_return_zero_witness :
    (tradeC1.rows ≠ [] ∧
     ((windowRows tradeC1 0 pairsC1 paramsC1 sqrtC1).getD 0 ⟨0, 0, 0, 0, 0⟩).portfolio_return = 0) ∧
    ((1 : ℕ) ≠ 0 ∧
     ((zeroRows 5 1).getD 0 ⟨0, 0, 0, 0, 0⟩).portfolio_return = 0) :=
  ⟨⟨by simp [tradeC1],
    first_window_session_return_zero.1 tradeC1 0 pairsC1 paramsC1 sqrtC1
      ⟨0, 0, 0, 0, 0⟩ (by simp [tradeC1])⟩,
   ⟨by norm_num,
    first_window_session_return_zero.2 5 1 ⟨0, 0, 0, 0, 0⟩ (by norm_num)⟩⟩

/-! ## Claim C5 — walk-forward stitching -/

/-- Deduplication only keeps rows of the original list. -/
theorem mem_dedupKeepLast (a : ResultRow) :
    ∀ (rows : List ResultRow), a ∈ dedupKeepLast rows → a ∈ rows := by
  intro rows
  induction rows with
  | nil => intro h; exact absurd h (List.not_mem_nil a)
  | cons r rs ih =>
    intro h
    unfold dedupKeepLast at h
    by_cases hdup : rs.any (fun r2 => r2.date = r.date) = true
    · rw [if_pos hdup] at h
      exact List.mem_cons_of_mem _ (ih h)
    · rw [if_neg hdup] at h
      rcases List.mem_cons.mp h with h1 | h2
      · exact h1 ▸ List.mem_cons_self _ _
      · exact List.mem_cons_of_mem _ (ih h2)

/-- After deduplication, dates are pairwise distinct. -/
theorem nodup_dates_dedupKeepLast (rows : List ResultRow) :
    ((dedupKeepLast rows).map ResultRow.date).Nodup := by
  induction rows with
  | nil => simp [dedupKeepLast]
  | cons r rs ih =>
    unfold dedupKeepLast
    by_cases hdup : rs.any (fun r2 => r2.date = r.date) = true
    · rw [if_pos hdup]; exact ih
    · rw [if_neg hdup]
      simp only [List.map_cons, List.nodup_cons]
      refine ⟨?_, ih⟩
      intro hmem
      obtain ⟨r2, hr2, hdate⟩ := List.mem_map.mp hmem
      exact absurd
        (List.any_eq_true.mpr ⟨r2, mem_dedupKeepLast r2 rs hr2, by simp [hdate]⟩) hdup

/-- `find?` returns the head of the filtered list. -/
theorem find?_eq_head?_filter {α : Type} (p : α → Bool) (l : List α) :
    l.find? p = (l.filter p).head? := by
  induction l with
  | nil => rfl
  | cons x xs ih =>
    by_cases h : p x
    · rw [List.find?_cons_of_pos _ h, List.filter_cons_of_pos h]
      rfl
    · rw [List.find?_cons_of_neg _ (by simpa using h),
        List.filter_cons_of_neg (by simpa using h)]
      exact ih

/-- Filtering the deduplicated rows by a date keeps exactly the last-written
row with that date (if any). -/
theorem filter_dedupKeepLast (d : ℕ) :
    ∀ (rows : List ResultRow),
      (dedupKeepLast rows).filter (fun r => r.date = d) =
        ((rows.filter (fun r => r.date = d)).getLast?).toList := by
  intro rows
  induction rows with
  | nil => rfl
  | cons r rs ih =>
    unfold dedupKeepLast
    by_cases hdup : rs.any (fun r2 => r2.date = r.date) = true
    · rw [if_pos hdup, ih]
      by_cases hd : r.date = d
      · rw [List.filter_cons_of_pos (by simp [hd])]
        obtain ⟨r2, hr2, hdate⟩ := List.any_eq_true.mp hdup
        have hmem : r2 ∈ rs.filter (fun r3 => r3.date = d) :=
          List.mem_filter.mpr ⟨hr2, by simp only [decide_eq_true_eq] at hdate ⊢; omega⟩
        obtain ⟨x, xs, hxs⟩ :
            ∃ x xs, rs.filter (fun r3 => r3.date = d) = x :: xs := by
          cases hfe : rs.filter (fun r3 => r3.date = d) with
          | nil => rw [hfe] at hmem; exact absurd hmem (List.not_mem_nil r2)
          | cons x xs => exact ⟨x, xs, rfl⟩
        rw [hxs, List.getLast?_cons_cons]
      · rw [List.filter_cons_of_neg (by simp [hd])]
    · rw [if_neg hdup]
      have hnone : ∀ r2 ∈ rs, ¬ (r2.date = d) ∨ ¬ (r.date = d) := by
        intro r2 hr2
        by_cases hd : r.date = d
        · left
          intro hc
          exact absurd (List.any_eq_true.mpr ⟨r2, hr2, by simp [hc, hd]⟩) hdup
        · right; exact hd
      by_cases hd : r.date = d
      · rw [List.filter_cons_of_pos (by simp [hd]),
          List.filter_cons_of_pos (by simp [hd])]
        have h2 : rs.filter (fun r2 => r2.date = d) = [] := by
          rw [List.filter_eq_nil_iff]
          intro a ha
          rcases hnone a ha with h | h
          · simpa using h
          · exact absurd hd h
        have h1 : (dedupKeepLast rs).filter (fun r2 => r2.date = d) = [] := by
          rw [List.filter_eq_nil_iff]
          intro a ha
          rcases hnone a (mem_dedupKeepLast a rs ha) with h | h
          · simpa using h
          · exact absurd hd h
        rw [h1, h2]
        rfl
      · rw [List.filter_cons_of_neg (by simp [hd]),
          List.filter_cons_of_neg (by simp [hd])]
        exact ih

/-- A permutation of a list with at most one element is that list. -/
theorem perm_eq_of_length_le_one {α : Type} {l1 l2 : List α}
    (h : l1.Perm l2) (hl : l2.length ≤ 1) : l1 = l2 := by
  cases l2 with
  | nil => exact h.eq_nil
  | cons x xs =>
    cases xs with
    | nil => exact List.perm_singleton.mp h
    | cons y ys => simp at hl

/-- C5: the final table of `run_backtest` has strictly increasing dates —
exactly one row per date, in chronological order — and the stitching step
resolves duplicate dates by keeping the last-written row: looking up any date
in the stitched table returns the last row recorded for that date. -/
theorem run_backtest_stitching :
    (∀ (prices : PriceDF) (P : BTParams) (cointPV : List ℚ → List ℚ → ℚ)
        (sqrtQ : ℚ → ℚ),
      List.Sorted (· < ·) ((run_backtest prices P cointPV sqrtQ).map ResultRow.date)) ∧
    (∀ (rows : List ResultRow) (d : ℕ),
      (stitch rows).find? (fun r => r.date = d) =
        (rows.filter (fun r => r.date = d)).getLast?) := by
  have hsorted : ∀ rows : List ResultRow,
      List.Sorted (· < ·) ((stitch rows).map ResultRow.date) := by
    intro rows
    unfold stitch
    have htrans : ∀ a b c : ResultRow, (decide (a.date ≤ b.date)) = true →
        (decide (b.date ≤ c.date)) = true → (decide (a.date ≤ c.date)) = true := by
      intro a b c h1 h2
      simp only [decide_eq_true_eq] at h1 h2 ⊢
      omega
    have htotal : ∀ a b : ResultRow,
        ((decide (a.date ≤ b.date)) || (decide (b.date ≤ a.date))) = true := by
      intro a b
      rcases Nat.le_total a.date b.date with h | h <;> simp [h]
    have hle := List.sorted_mergeSort htrans htotal (dedupKeepLast rows)
    have hperm : ((dedupKeepLast rows).mergeSort
        (fun a b => decide (a.date ≤ b.date))).Perm (dedupKeepLast rows) :=
      List.mergeSort_perm _ _
    have hnodup : (((dedupKeepLast rows).mergeSort
        (fun a b => decide (a.date ≤ b.date))).map ResultRow.date).Nodup :=
      ((hperm.map ResultRow.date).nodup_iff).mpr (nodup_dates_dedupKeepLast rows)
    have hne : List.Pairwise (fun a b : ResultRow => a.date ≠ b.date)
        ((dedupKeepLast rows).mergeSort (fun a b => decide (a.date ≤ b.date))) :=
      List.pairwise_map.mp hnodup
    have hle2 : List.Pairwise (fun a b : ResultRow => a.date ≤ b.date)
        ((dedupKeepLast rows).mergeSort (fun a b => decide (a.date ≤ b.date))) :=
      hle.imp (fun h => by simpa using h)
    rw [List.Sorted, List.pairwise_map]
    exact (hle2.and hne).imp (fun h => lt_of_le_of_ne h.1 h.2)
  constructor
  · intro prices P cointPV sqrtQ
    exact hsorted _
  · intro rows d
    rw [find?_eq_head?_filter]
    have hperm : ((stitch rows).filter (fun r => r.date = d)).Perm
        ((dedupKeepLast rows).filter (fun r => r.date = d)) :=
      (List.mergeSort_perm (dedupKeepLast rows) _).filter _
    have hsmall : ((dedupKeepLast rows).filter (fun r => r.date = d)).length ≤ 1 := by
      rw [filter_dedupKeepLast]
      cases (rows.filter (fun r => r.date = d)).getLast? <;> simp
    rw [perm_eq_of_length_le_one hperm hsmall, filter_dedupKeepLast]
    cases (rows.filter (fun r => r.date = d)).getLast? <;> rfl

/-! ## Claim C7 — near-zero standard deviation in z-score computation -/

/-- C7 counterexample: the batch Signal Generator's rolling z-score has no
numerical floor — on a zero-variance lookback window the z-score cell is NaN
(undefined), not `0.0`: with spread `[1, 1, 1]` and lookback 2 the session-1
cell is `none`, which differs from a defined `0.0` cell. -/
theorem batch_zscore_no_floor_counterexample :
    (compute_zscore [1, 1, 1] 2 (fun q => q)).get? 1 = some none ∧
    (none : Option ℚ) ≠ some 0 := by
  constructor
  · have hr : List.range ([(1:ℚ), 1, 1].length) = [0, 1, 2] := rfl
    norm_num [compute_zscore, hr, sampleVar, mean]
  · simp

/-- C7, as it holds on the code: the Live Tracker's trailing z-score is
floored — whenever the trailing standard deviation (a true square root of the
trailing sample variance) is below the 1e-8 floor, it returns exactly `0.0`;
the batch rolling z-score has no floor, and a zero-variance lookback window
yields an undefined (NaN) cell instead. -/
theorem zscore_near_zero_std (spread : List ℚ) (lookback : ℕ) (sqrtQ : ℚ → ℚ) :
    (0 ≤ sqrtQ (sampleVar (LiveFeed.recentWindow spread lookback)) →
     sqrtQ (sampleVar (LiveFeed.recentWindow spread lookback)) *
       sqrtQ (sampleVar (LiveFeed.recentWindow spread lookback)) =
       sampleVar (LiveFeed.recentWindow spread lookback) →
     sampleVar (LiveFeed.recentWindow spread lookback) < 1/10000000000000000 →
     LiveFeed.compute_zscore spread lookback sqrtQ = 0) ∧
    (∀ i : ℕ, i < spread.length →
     sampleVar ((spread.take (i + 1)).drop (i + 1 - lookback)) = 0 →
     (compute_zscore spread lookback sqrtQ).get? i = some none) := by
  constructor
  · intro h0 hsq hv
    have hstd : sqrtQ (sampleVar (LiveFeed.recentWindow spread lookback)) <
        1/100000000 := by
      by_contra hc
      push_neg at hc
      have hmul : (1/100000000 : ℚ) * (1/100000000) ≤
          sqrtQ (sampleVar (LiveFeed.recentWindow spread lookback)) *
            sqrtQ (sampleVar (LiveFeed.recentWindow spread lookback)) :=
        mul_le_mul hc hc (by norm_num) h0
      rw [hsq] at hmul
      norm_num at hmul
      linarith
    unfold LiveFeed.compute_zscore
    rw [if_pos hstd]
  · intro i hi hv
    unfold compute_zscore
    rw [List.get?_eq_getElem?, List.getElem?_map, List.getElem?_range hi]
    simp only [Option.map_some']
    by_cases hlb : i + 1 < lookback
    · rw [if_pos hlb]
    · rw [if_neg hlb, if_pos hv]

/-- Witness for C7: the trailing z-score of the constant spread `[3, 3]`
(zero variance, zero square root) is `0.0`, and the batch rolling z-score of
the constant spread `[2, 2]` has a NaN cell at session 1. -/
theorem zscore_near_zero_std_witness :
    LiveFeed.compute_zscore [3, 3] 5 (fun _ => 0) = 0 ∧
    (compute_zscore [2, 2] 2 (fun q => q)).get? 1 = some none :=
  ⟨(zscore_near_zero_std [3, 3] 5 (fun _ => 0)).1 (le_refl 0)
      (by norm_num [LiveFeed.recentWindow, sampleVar, mean])
      (by norm_num [LiveFeed.recentWindow, sampleVar, mean]),
   (zscore_near_zero_std [2, 2] 2 (fun q => q)).2 1 (by norm_num)
      (by norm_num [sampleVar, mean])⟩

/-! ## Claims C4, C8, C9 — scanner acceptance conditions -/

/-- Any metrics record accepted by `_compute_pair_metrics` passed its guard
chain: in particular its cointegration p-value is at most 0.05 (the guard
rejects only `pvalue > 0.05`) and its hedge ratio has absolute value within
`[0.1, 10]`. -/
theorem compute_pair_metrics_guards (prices_a prices_b : List ℚ)
    (cointPV : List ℚ → List ℚ → ℚ) (adfPV : List ℚ → ℚ)
    (sqrtQ : ℚ → ℚ) (ln2 : ℚ) (m : PairMetrics)
    (h : _compute_pair_metrics prices_a prices_b cointPV adfPV sqrtQ ln2 = some m) :
    m.coint_pvalue ≤ 1/20 ∧ 1/10 ≤ |m.hedge_ratio| ∧ |m.hedge_ratio| ≤ 10 := by
  unfold _compute_pair_metrics at h
  dsimp only at h
  split at h
  · exact absurd h (by simp)
  · rename_i hpv
    split at h
    · exact absurd h (by simp)
    · rename_i hhr
      split at h
      · exact absurd h (by simp)
      · split at h
        · exact absurd h (by simp)
        · split at h
          · exact absurd h (by simp)
          · split at h
            · exact absurd h (by simp)
            · injection h with h2
              subst h2
              push_neg at hpv hhr
              exact ⟨hpv, hhr.1, hhr.2⟩

/-- C4 as it holds on the code: the ungrouped scanner accepts only pairs with
p-value strictly below `p_threshold`; the stricter sector-grouped scanner
rejects only p-values strictly above 0.05, so its accepted pairs satisfy
`p ≤ 0.05` — a pair whose p-value is exactly 0.05 can be returned. -/
theorem scanner_pvalue_thresholds :
    (∀ (prices : PriceDF) (p_threshold : ℚ) (cointPV : List ℚ → List ℚ → ℚ)
        (p : PairC), p ∈ find_cointegrated_pairs prices p_threshold cointPV →
      p.pvalue < p_threshold) ∧
    (∀ (prices_a prices_b : List ℚ) (cointPV : List ℚ → List ℚ → ℚ)
        (adfPV : List ℚ → ℚ) (sqrtQ : ℚ → ℚ) (ln2 : ℚ) (m : PairMetrics),
      _compute_pair_metrics prices_a prices_b cointPV adfPV sqrtQ ln2 = some m →
      m.coint_pvalue ≤ 1/20) := by
  constructor
  · intro prices thr cointPV p hp
    unfold find_cointegrated_pairs at hp
    dsimp only at hp
    rw [List.mem_mergeSort] at hp
    obtain ⟨ab, hab, heq⟩ := List.mem_filterMap.mp hp
    split at heq
    · rename_i hcond
      injection heq with h2
      subst h2
      exact hcond
    · exact absurd heq (by simp)
  · intro a b cointPV adfPV sqrtQ ln2 m h
    exact (compute_pair_metrics_guards a b cointPV adfPV sqrtQ ln2 m h).1

/-- C8 as it holds on the code: every pair the stricter scanner keeps has a
hedge ratio whose *absolute value* lies in `[0.1, 10]` — the guard is on
`abs(hedge_ratio)`, so a negative hedge ratio such as −1 is accepted even
though it lies outside the interval `[0.1, 10]` itself. -/
theorem scanner_hedge_ratio_bounds (prices_a prices_b : List ℚ)
    (cointPV : List ℚ → List ℚ → ℚ) (adfPV : List ℚ → ℚ)
    (sqrtQ : ℚ → ℚ) (ln2 : ℚ) (m : PairMetrics)
    (h : _compute_pair_metrics prices_a prices_b cointPV adfPV sqrtQ ln2 = some m) :
    1/10 ≤ |m.hedge_ratio| ∧ |m.hedge_ratio| ≤ 10 :=
  (compute_pair_metrics_guards prices_a prices_b cointPV adfPV sqrtQ ln2 m h).2

/-- The greedy selection loop only returns candidates from its input list. -/
theorem mem_selectLoop (max_pairs max_per_sector : ℕ) (c : Cand) :
    ∀ (l : List Cand) (sector_count : String → ℕ) (n : ℕ),
      c ∈ selectLoop max_pairs max_per_sector l sector_count n → c ∈ l := by
  intro l
  induction l with
  | nil => intro cnt n h; exact absurd h (List.not_mem_nil c)
  | cons x xs ih =>
    intro cnt n h
    unfold selectLoop at h
    by_cases h1 : max_per_sector ≤ cnt x.sector
    · rw [if_pos h1] at h
      exact List.mem_cons_of_mem _ (ih _ _ h)
    · rw [if_neg h1] at h
      rcases List.mem_cons.mp h with h2 | h2
      · exact h2 ▸ List.mem_cons_self _ _
      · by_cases h3 : max_pairs ≤ n + 1
        · rw [if_pos h3] at h2
          exact absurd h2 (List.not_mem_nil c)
        · rw [if_neg h3] at h2
          exact List.mem_cons_of_mem _ (ih _ _ h2)

/-- C9 as it holds on the code: every pair returned by the sector-grouped
scanner `scan_pairs` has at least 100 aligned non-missing observations on
each leg (candidates below the minimum are skipped before testing); the
ungrouped `find_cointegrated_pairs` has no such guard. -/
theorem scan_pairs_min_sample (prices : ScanPrices) (sectors : List (String × String))
    (max_pairs max_per_sector : ℕ) (cointPV : List ℚ → List ℚ → ℚ)
    (adfPV : List ℚ → ℚ) (sqrtQ : ℚ → ℚ) (ln2 : ℚ) (c : Cand)
    (hc : c ∈ scan_pairs prices sectors max_pairs max_per_sector cointPV adfPV sqrtQ ln2) :
    100 ≤ (dropna (scanCol prices c.ticker_a)).length ∧
    100 ≤ (dropna (scanCol prices c.ticker_b)).length := by
  unfold scan_pairs at hc
  have h1 : c ∈ scanCandidates prices sectors cointPV adfPV sqrtQ ln2 :=
    List.mem_mergeSort.mp (mem_selectLoop max_pairs max_per_sector c _ _ _ hc)
  unfold scanCandidates at h1
  obtain ⟨g, hg, h2⟩ := List.mem_flatMap.mp h1
  split at h2
  · exact absurd h2 (List.not_mem_nil c)
  · obtain ⟨ab, hab, heq⟩ := List.mem_filterMap.mp h2
    dsimp only at heq
    split at heq
    · split at heq
      · exact absurd heq (by simp)
      · rename_i hlen
        push_neg at hlen
        split at heq
        · exact absurd heq (by simp)
        · injection heq with h3
          subst h3
          exact ⟨le_trans hlen (min_le_left _ _), le_trans hlen (min_le_right _ _)⟩
    · exact absurd heq (by simp)

/-! ### Concrete scanner data -/

/-- 12-session series: `listB12` plus an alternating ±1 disturbance that is
exactly uncorrelated with it, so the OLS slope is exactly 1 and the spread is
the alternating disturbance (population variance 1, AR(1) slope −2). -/
def listA12 : List ℚ := [11, 9, 21, 19, 31, 29, 41, 39, 51, 49, 61, 59]

/-- 12-session base series (each level twice). -/
def listB12 : List ℚ := [10, 10, 20, 20, 30, 30, 40, 40, 50, 50, 60, 60]

/-- `−listB12` plus the same disturbance: OLS slope exactly −1. -/
def listA12neg : List ℚ := [-9, -11, -19, -21, -29, -31, -39, -41, -49, -51, -59, -61]

/-- 100-session analogue of `listA12` (levels 1..50 each twice, plus the
alternating ±1 disturbance). -/
def listA100 : List ℚ := [11, 9, 21, 19, 31, 29, 41, 39, 51, 49, 61, 59, 71, 69, 81, 79, 91, 89, 101, 99, 111, 109, 121, 119, 131, 129, 141, 139, 151, 149, 161, 159, 171, 169, 181, 179, 191, 189, 201, 199, 211, 209, 221, 219, 231, 229, 241, 239, 251, 249, 261, 259, 271, 269, 281, 279, 291, 289, 301, 299, 311, 309, 321, 319, 331, 329, 341, 339, 351, 349, 361, 359, 371, 369, 381, 379, 391, 389, 401, 399, 411, 409, 421, 419, 431, 429, 441, 439, 451, 449, 461, 459, 471, 469, 481, 479, 491, 489, 501, 499]

/-- 100-session base series. -/
def listB100 : List ℚ := [10, 10, 20, 20, 30, 30, 40, 40, 50, 50, 60, 60, 70, 70, 80, 80, 90, 90, 100, 100, 110, 110, 120, 120, 130, 130, 140, 140, 150, 150, 160, 160, 170, 170, 180, 180, 190, 190, 200, 200, 210, 210, 220, 220, 230, 230, 240, 240, 250, 250, 260, 260, 270, 270, 280, 280, 290, 290, 300, 300, 310, 310, 320, 320, 330, 330, 340, 340, 350, 350, 360, 360, 370, 370, 380, 380, 390, 390, 400, 400, 410, 410, 420, 420, 430, 430, 440, 440, 450, 450, 460, 460, 470, 470, 480, 480, 490, 490, 500, 500]

/-- The scanner price table over the 100-session data (no missing cells). -/
def pricesScan : ScanPrices :=
  [("AAA", listA100.map some), ("BBB", listB100.map some)]

/-- Both tickers in one sector, so the pair is tested. -/
def sectorsScan : List (String × String) := [("AAA", "Tech"), ("BBB", "Tech")]

/-- The candidate `scan_pairs` produces on `pricesScan` when the
cointegration oracle returns exactly 0.05 and the ADF oracle 0.01. -/
def cand100 : Cand :=
  ⟨"AAA", "BBB", "Tech", 5112733/5206500, ⟨1/20, 1/100, 1, 7/20, 1, -1, 20825/20826⟩⟩

/-- A 3-session two-ticker price matrix (far below 100 observations). -/
def pricesTiny : PriceDF := ⟨["AAA", "BBB"], [[1, 1], [2, 2], [3, 4]]⟩

/-- `dropna` undoes a `map some` (an all-defined column survives cleaning). -/
theorem dropna_map_some (l : List ℚ) : dropna (l.map some) = l := by
  induction l with
  | nil => rfl
  | cons x xs ih => simp only [List.map_cons, dropna, List.filterMap_cons, id] at ih ⊢; rw [ih]

set_option maxHeartbeats 4000000 in
set_option maxRecDepth 100000 in
/-- The metrics of the 100-session pair when the cointegration oracle returns
exactly 0.05 and the ADF oracle 0.01: hedge ratio exactly 1, spread equal to
the alternating ±1 disturbance, AR(1) slope −2, z-score −1. -/
theorem compute_pair_metrics_eval_100 :
    _compute_pair_metrics listA100 listB100 (fun _ _ => 1/20) (fun _ => 1/100)
      (fun q => q) (7/10) = some ⟨1/20, 1/100, 1, 7/20, 1, -1, 20825/20826⟩ := by
  norm_num [_compute_pair_metrics, olsSlope, olsR2, popVar, mean,
    listA100, listB100, List.getLastD, List.dropLast, max_def, min_def]

set_option maxHeartbeats 2000000 in
/-- Full evaluation of the sector-grouped scanner on the 100-session data
with a cointegration p-value of exactly 0.05: the pair is accepted. -/
theorem scan_pairs_eval :
    scan_pairs pricesScan sectorsScan 10 2 (fun _ _ => 1/20) (fun _ => 1/100)
      (fun q => q) (7/10) = [cand100] := by
  have e1 : (("AAA" : String) == "AAA") = true := by decide
  have e2 : (("AAA" : String) == "BBB") = false := by decide
  have e3 : (("BBB" : String) == "AAA") = false := by decide
  have e4 : (("BBB" : String) == "BBB") = true := by decide
  have hcols : pricesScan.map Prod.fst = ["AAA", "BBB"] := by
    norm_num [pricesScan]
  have hgroups : sectorGroups ["AAA", "BBB"] sectorsScan = [("Tech", ["AAA", "BBB"])] := by
    norm_num [sectorGroups, sectorOf, dedupKeepFirst, sectorsScan, List.lookup,
      e1, e2, e3, e4]
  have hA : scanCol pricesScan "AAA" = listA100.map some := by
    norm_num [scanCol, pricesScan, List.lookup, e1, e2, e3, e4]
  have hB : scanCol pricesScan "BBB" = listB100.map some := by
    norm_num [scanCol, pricesScan, List.lookup, e1, e2, e3, e4]
  have hlenA : listA100.length = 100 := by rfl
  have hlenB : listB100.length = 100 := by rfl
  have hcand : scanCandidates pricesScan sectorsScan (fun _ _ => 1/20)
      (fun _ => 1/100) (fun q => q) (7/10) = [cand100] := by
    rw [scanCandidates, hcols, hgroups]
    norm_num [combinations2, hA, hB, dropna_map_some, hlenA, hlenB,
      compute_pair_metrics_eval_100, cand100, List.filterMap_cons,
      List.filterMap_nil, min_self, sup_eq_max, max_def]
  rw [scan_pairs, hcand]
  norm_num [selectLoop, List.mergeSort, cand100]

/-- C4 counterexample: with an Engle-Granger p-value of exactly 0.05 the
stricter scanner accepts and returns the pair (`if pvalue > 0.05` does not
fire), so a returned candidate carries `coint_pvalue = 0.05`, which is not
strictly below the 0.05 threshold. -/
theorem strict_scanner_pvalue_boundary_counterexample :
    (scan_pairs pricesScan sectorsScan 10 2 (fun _ _ => 1/20) (fun _ => 1/100)
      (fun q => q) (7/10)).map (fun c => c.m.coint_pvalue) = [1/20] ∧
    ¬ ((1:ℚ)/20 < 1/20) := by
  constructor
  · rw [scan_pairs_eval]
    norm_num [cand100]
  · norm_num

/-- Witness for C4: a concrete accepted pair in each scanner mode. -/
theorem scanner_pvalue_thresholds_witness :
    ((⟨"AAA", "BBB", 1/100, 9/14⟩ : PairC) ∈
        find_cointegrated_pairs pricesTiny (1/20) (fun _ _ => 1/100) ∧
      (⟨"AAA", "BBB", 1/100, 9/14⟩ : PairC).pvalue < 1/20) ∧
    (_compute_pair_metrics listA12 listB12 (fun _ _ => 1/20) (fun _ => 1/100)
        (fun q => q) (7/10) = some ⟨1/20, 1/100, 1, 7/20, 1, -1, 875/878⟩ ∧
      (⟨1/20, 1/100, 1, 7/20, 1, -1, 875/878⟩ : PairMetrics).coint_pvalue ≤ 1/20) := by
  have e2 : (("AAA" : String) == "BBB") = false := by decide
  have e3 : (("BBB" : String) == "AAA") = false := by decide
  have e4 : (("BBB" : String) == "BBB") = true := by decide
  have hmem : (⟨"AAA", "BBB", 1/100, 9/14⟩ : PairC) ∈
      find_cointegrated_pairs pricesTiny (1/20) (fun _ _ => 1/100) := by
    norm_num [find_cointegrated_pairs, combinations2, pricesTiny, PriceDF.col,
      PriceDF.colIdx, olsSlope, List.mergeSort, List.merge, List.indexOf,
      List.findIdx, List.findIdx.go, e2, e3, e4,
      List.filterMap_cons, List.filterMap_nil]
  have hmet : _compute_pair_metrics listA12 listB12 (fun _ _ => 1/20)
      (fun _ => 1/100) (fun q => q) (7/10) =
      some ⟨1/20, 1/100, 1, 7/20, 1, -1, 875/878⟩ := by
    norm_num [_compute_pair_metrics, olsSlope, olsR2, popVar, mean,
      listA12, listB12, List.getLastD, List.dropLast, max_def, min_def]
  exact ⟨⟨hmem, scanner_pvalue_thresholds.1 pricesTiny (1/20) (fun _ _ => 1/100) _ hmem⟩,
    ⟨hmet, scanner_pvalue_thresholds.2 listA12 listB12 (fun _ _ => 1/20)
      (fun _ => 1/100) (fun q => q) (7/10) _ hmet⟩⟩

/-- C8 counterexample: a pair whose OLS hedge ratio is exactly −1 passes the
`abs(hedge_ratio)` guard and is returned by the stricter scanner, although −1
lies outside the interval `[0.1, 10]` itself. -/
theorem scanner_hedge_interval_counterexample :
    (_compute_pair_metrics listA12neg listB12 (fun _ _ => 1/100) (fun _ => 1/100)
      (fun q => q) (7/10)).map (fun m => m.hedge_ratio) = some (-1) ∧
    ¬ ((1:ℚ)/10 ≤ -1) := by
  constructor
  · norm_num [_compute_pair_metrics, olsSlope, olsR2, popVar, mean,
      listA12neg, listB12, List.getLastD, List.dropLast, max_def, min_def]
  · norm_num

/-- Witness for C8 at a concrete accepted pair with hedge ratio 1. -/
theorem scanner_hedge_ratio_bounds_witness :
    _compute_pair_metrics listA12 listB12 (fun _ _ => 1/100) (fun _ => 1/100)
        (fun q => q) (7/10) = some ⟨1/100, 1/100, 1, 7/20, 1, -1, 875/878⟩ ∧
    (1/10 ≤ |(⟨1/100, 1/100, 1, 7/20, 1, -1, 875/878⟩ : PairMetrics).hedge_ratio| ∧
      |(⟨1/100, 1/100, 1, 7/20, 1, -1, 875/878⟩ : PairMetrics).hedge_ratio| ≤ 10) := by
  have hmet : _compute_pair_metrics listA12 listB12 (fun _ _ => 1/100)
      (fun _ => 1/100) (fun q => q) (7/10) =
      some ⟨1/100, 1/100, 1, 7/20, 1, -1, 875/878⟩ := by
    norm_num [_compute_pair_metrics, olsSlope, olsR2, popVar, mean,
      listA12, listB12, List.getLastD, List.dropLast, max_def, min_def]
  exact ⟨hmet, scanner_hedge_ratio_bounds listA12 listB12 (fun _ _ => 1/100)
    (fun _ => 1/100) (fun q => q) (7/10) _ hmet⟩

/-- C9 counterexample: the ungrouped scanner has no minimum-sample guard — on
a 3-session price matrix it still tests the pair and returns it when the
p-value oracle passes, although 3 < 100. -/
theorem ungrouped_no_min_sample_counterexample :
    (find_cointegrated_pairs pricesTiny (1/20) (fun _ _ => 1/100)).length = 1 ∧
    pricesTiny.rows.length < 100 := by
  have e2 : (("AAA" : String) == "BBB") = false := by decide
  have e3 : (("BBB" : String) == "AAA") = false := by decide
  have e4 : (("BBB" : String) == "BBB") = true := by decide
  constructor
  · norm_num [find_cointegrated_pairs, combinations2, pricesTiny, PriceDF.col,
      PriceDF.colIdx, olsSlope, List.mergeSort, List.merge, List.indexOf,
      List.findIdx, List.findIdx.go, e2, e3, e4,
      List.filterMap_cons, List.filterMap_nil]
  · norm_num [pricesTiny]

/-- Witness for C9: the concrete candidate returned by `scan_pairs` on the
100-session data has 100 aligned non-missing observations on each leg. -/
theorem scan_pairs_min_sample_witness :
    cand100 ∈ scan_pairs pricesScan sectorsScan 10 2 (fun _ _ => 1/20)
      (fun _ => 1/100) (fun q => q) (7/10) ∧
    (100 ≤ (dropna (scanCol pricesScan cand100.ticker_a)).length ∧
     100 ≤ (dropna (scanCol pricesScan cand100.ticker_b)).length) := by
  have hmem : cand100 ∈ scan_pairs pricesScan sectorsScan 10 2 (fun _ _ => 1/20)
      (fun _ => 1/100) (fun q => q) (7/10) := by
    rw [scan_pairs_eval]
    exact List.mem_singleton.mpr rfl
  exact ⟨hmem, scan_pairs_min_sample pricesScan sectorsScan 10 2
    (fun _ _ => 1/20) (fun _ => 1/100) (fun q => q) (7/10) cand100 hmem⟩

end StatArb
